import Mathlib

/-!
Verification of the vote and quorum-certificate subsystem of the
linera-protocol repository, together with the CLI query-output truncation
helper. The vote/certificate core is exercised by
`src/linera-chain/src/unit_tests/data_types_tests.rs`; its implementation is
modelled from the specification (the implementation file is not part of the
provided sources). `truncate_query_output` is embedded directly from
`src/linera-service/src/cli_wrappers/wallet.rs`.
-/

namespace Linera

/-- Modelled from the spec: a validator's secret signing key (the concrete
Ed25519 key material is external; keys are abstracted as naturals). -/
abbrev SecretKey := Nat

/-- Modelled from the spec: a validator's public key, self-identifying in
votes and committee tables. -/
abbrev PublicKey := Nat

/-- Modelled from the spec: derivation of the public key corresponding to a
secret key; injective, as for real key pairs. -/
def publicOf (sk : SecretKey) : PublicKey := sk

/-- Modelled from the spec: the round tag attached to every vote and
certificate — a fast path plus indexed fallback phases. -/
inductive Round where
  | Fast
  | MultiLeader (n : Nat)
  | SingleLeader (n : Nat)
  | Validator (n : Nat)
deriving DecidableEq, Repr

/-- Modelled from the spec: the deterministic, hashable record of what
executing a block produced. Field payloads (messages, events, blobs, …) are
abstracted as naturals; only structural equality and hashability matter. -/
structure BlockExecutionOutcome where
  messages : List (List Nat)
  previous_message_blocks : List (Nat × Nat)
  state_hash : Nat
  oracle_responses : List (List Nat)
  events : List (List Nat)
  blobs : List (List Nat)
  operation_results : List Nat
deriving DecidableEq, Repr

/-- Modelled from the spec: the block content (proposal metadata) paired with
its execution outcome; together they form the hashed value body. -/
structure Block where
  content : Nat
  outcome : BlockExecutionOutcome
deriving DecidableEq, Repr

/-- Modelled from the spec: the two distinguished semantic kinds of
commitment over the same block content. -/
inductive ValueKind where
  | ConfirmedBlock
  | ValidatedBlock
deriving DecidableEq, Repr

/-- Modelled from the spec: a full tagged value — one of the two kinds
wrapping the same underlying block content. -/
structure HashedValue where
  kind : ValueKind
  block : Block
deriving DecidableEq, Repr

/-- Modelled from the spec: wrap block content as a finally confirmed
block. -/
def ConfirmedBlock.new (b : Block) : HashedValue :=
  { kind := ValueKind.ConfirmedBlock, block := b }

/-- Modelled from the spec: wrap block content as a tentatively validated
block. -/
def ValidatedBlock.new (b : Block) : HashedValue :=
  { kind := ValueKind.ValidatedBlock, block := b }

/-- Modelled from the spec: the hash of the canonical byte encoding of a
tagged value. The encoding embeds the kind tag before the block content;
hashing is modelled as an injective (collision-free) function, so the hash is
represented by the encoded pair itself. -/
abbrev CryptoHash := ValueKind × Block

/-- Modelled from the spec: compute the hash of a full tagged value over the
canonical encoding that includes the kind tag. -/
def cryptoHash (v : HashedValue) : CryptoHash := (v.kind, v.block)

/-- Modelled from the spec: the lightweight commitment actually signed — the
hash of the full value plus its kind tag. -/
structure LiteValue where
  value_hash : CryptoHash
  kind : ValueKind
deriving DecidableEq, Repr

/-- Modelled from the spec: `LiteValue::new` deterministically reduces a full
tagged value to its hash commitment and records the kind. -/
def LiteValue.new (v : HashedValue) : LiteValue :=
  { value_hash := cryptoHash v, kind := v.kind }

/-- Modelled from the spec: the canonical byte encoding of `(LiteValue,
Round)` that a vote signs, represented symbolically by the pair itself. -/
abbrev VotePayload := LiteValue × Round

/-- Modelled from the spec: a cryptographic signature; modelled symbolically
as unforgeable, so it records exactly the payload signed and the public key
of the signer. -/
structure Signature where
  payload : VotePayload
  signer : PublicKey
deriving DecidableEq, Repr

/-- Modelled from the spec: sign a payload with a secret key. -/
def Signature.sign (p : VotePayload) (sk : SecretKey) : Signature :=
  { payload := p, signer := publicOf sk }

/-- Modelled from the spec: verify a signature against a payload and a public
key; succeeds exactly when the signature was produced over this payload by
the secret key matching this public key. -/
def Signature.verify (sig : Signature) (p : VotePayload) (pk : PublicKey) : Bool :=
  decide (sig.payload = p) && decide (sig.signer = pk)

/-- Modelled from the spec: the error taxonomy of the subsystem. -/
inductive ChainError where
  | UnknownSigner
  | DuplicateVote
  | DuplicateSigner
  | InvalidSignature
  | InsufficientQuorum
deriving DecidableEq, Repr

/-- Modelled from the spec: one validator's signature over a `(LiteValue,
Round)` pair, plus the self-identifying public key. -/
structure LiteVote where
  value : LiteValue
  round : Round
  public_key : PublicKey
  signature : Signature
deriving DecidableEq, Repr

/-- Modelled from the spec: `LiteVote::new` signs the canonical encoding of
`(lite_value, round)` with the given secret key and records the
corresponding public key. -/
def LiteVote.new (lv : LiteValue) (r : Round) (sk : SecretKey) : LiteVote :=
  { value := lv, round := r, public_key := publicOf sk,
    signature := Signature.sign (lv, r) sk }

/-- Modelled from the spec: `vote.check()` recomputes the expected signed
payload from the vote's own fields and verifies the signature against the
vote's public key. -/
def LiteVote.check (v : LiteVote) : Except ChainError Unit :=
  if v.signature.verify (v.value, v.round) v.public_key then Except.ok ()
  else Except.error ChainError.InvalidSignature

/-- Modelled from the spec: the authoritative mapping from validator public
key to positive voting power (keys unique), kept as an association list. -/
structure Committee where
  members : List (PublicKey × Nat)
deriving DecidableEq, Repr

/-- Modelled from the spec: `committee.power_of(public_key)` returns the
registered voting power, or `none` when the key is not a committee member. -/
def Committee.power_of (c : Committee) (pk : PublicKey) : Option Nat :=
  (c.members.find? (fun m => m.1 == pk)).map Prod.snd

/-- Modelled from the spec: the committee's total voting power. -/
def Committee.total (c : Committee) : Nat :=
  (c.members.map Prod.snd).sum

/-- Modelled from the spec: the quorum threshold — any accumulated power
strictly above `⌊2·total/3⌋` qualifies as a quorum. -/
def Committee.quorum_threshold (c : Committee) : Nat :=
  2 * c.total / 3

/-- Modelled from the spec: `committee.is_quorum(w)` holds when the
accumulated power strictly exceeds the quorum threshold; used identically by
aggregation and by certificate verification. -/
def Committee.is_quorum (c : Committee) (w : Nat) : Bool :=
  decide (c.quorum_threshold < w)

/-- Modelled from the spec: the finalized quorum proof — the full value, the
round, and the ordered list of `(public key, signature)` pairs. -/
structure Certificate where
  value : HashedValue
  round : Round
  signatures : List (PublicKey × Signature)
deriving DecidableEq, Repr

/-- Modelled from the spec: the stateful builder scoped to one
`(value, round)` instance that accumulates votes and their power. -/
structure SignatureAggregator where
  value : HashedValue
  round : Round
  committee : Committee
  votes : List (PublicKey × Signature)
  weight : Nat
deriving DecidableEq, Repr

/-- Modelled from the spec: `SignatureAggregator::new` binds the aggregator
to one candidate value and round with an empty signer set. -/
def SignatureAggregator.new (v : HashedValue) (r : Round) (c : Committee) :
    SignatureAggregator :=
  { value := v, round := r, committee := c, votes := [], weight := 0 }

/-- Modelled from the spec: `append(public_key, signature)` — reject unknown
signers, duplicate votes and invalid signatures before mutating any state;
on success record the pair, add the signer's power, and emit a certificate
once the accumulated power reaches a quorum. The returned aggregator is the
post-call state (unchanged on every error). -/
def SignatureAggregator.append (agg : SignatureAggregator) (pk : PublicKey)
    (sig : Signature) :
    SignatureAggregator × Except ChainError (Option Certificate) :=
  match agg.committee.power_of pk with
  | none => (agg, Except.error ChainError.UnknownSigner)
  | some power =>
    if agg.votes.any (fun v => v.1 == pk) then
      (agg, Except.error ChainError.DuplicateVote)
    else if sig.verify (LiteValue.new agg.value, agg.round) pk then
      let agg' := { agg with votes := agg.votes ++ [(pk, sig)],
                             weight := agg.weight + power }
      if agg.committee.is_quorum agg'.weight then
        (agg', Except.ok (some { value := agg.value, round := agg.round,
                                 signatures := agg'.votes }))
      else
        (agg', Except.ok none)
    else
      (agg, Except.error ChainError.InvalidSignature)

/-- Modelled from the spec: certificate verification walks the signature
list, requiring committee membership, a valid signature over the canonical
payload, and no repeated signer, while summing the signers' power. -/
def checkSignaturesAux (c : Committee) (p : VotePayload) :
    List (PublicKey × Signature) → List PublicKey → Nat → Except ChainError Nat
  | [], _, acc => Except.ok acc
  | (pk, sig) :: rest, seen, acc =>
    match c.power_of pk with
    | none => Except.error ChainError.UnknownSigner
    | some power =>
      if sig.verify p pk then
        if seen.contains pk then Except.error ChainError.DuplicateSigner
        else checkSignaturesAux c p rest (pk :: seen) (acc + power)
      else Except.error ChainError.InvalidSignature

/-- Modelled from the spec: `certificate.check(committee)` — recompute the
lite value, verify every listed signature, and require the distinct signers'
total power to be a quorum. -/
def Certificate.check (cert : Certificate) (c : Committee) : Except ChainError Unit :=
  match checkSignaturesAux c (LiteValue.new cert.value, cert.round) cert.signatures [] 0 with
  | Except.error e => Except.error e
  | Except.ok w =>
    if c.is_quorum w then Except.ok ()
    else Except.error ChainError.InsufficientQuorum

/-- A committee of two validators with equal power, as built by the unit
tests via `Committee::make_simple`. -/
def twoValidatorCommittee (pk1 pk2 : PublicKey) (p : Nat) : Committee :=
  { members := [(pk1, p), (pk2, p)] }

/-- Total committee power carried by a list of recorded votes. -/
def votesWeight (c : Committee) (votes : List (PublicKey × Signature)) : Nat :=
  (votes.map (fun pv => (c.power_of pv.1).getD 0)).sum

/-- Modelled from the spec: feeding a stream of `(public key, signature)`
submissions into an aggregator one at a time, as the external collector
does, stopping at the first emitted certificate. -/
def runAggregator (agg : SignatureAggregator) :
    List (PublicKey × Signature) → SignatureAggregator × Option Certificate
  | [] => (agg, none)
  | (pk, sig) :: rest =>
    match agg.append pk sig with
    | (agg', Except.ok (some cert)) => (agg', some cert)
    | (agg', Except.ok none) => runAggregator agg' rest
    | (agg', Except.error _) => runAggregator agg' rest

/-- The aggregator invariant: recorded signers are pairwise distinct
committee members whose signatures verify against the aggregator's own
payload, and the accumulated weight is exactly their total power. -/
def WFAgg (agg : SignatureAggregator) : Prop :=
  (agg.votes.map Prod.fst).Nodup ∧
  (∀ x ∈ agg.votes, ∃ q, agg.committee.power_of x.1 = some q ∧
    x.2.verify (LiteValue.new agg.value, agg.round) x.1 = true) ∧
  agg.weight = votesWeight agg.committee agg.votes

end Linera

namespace Linera

/-- Claim C1: for every block content `X`, the `LiteValue` computed from the
`ConfirmedBlock` wrapping of `X` differs from the `LiteValue` computed from
the `ValidatedBlock` wrapping of `X`, because the kind tag is embedded in the
hashed encoding. -/
theorem confirmed_validated_lite_values_differ (X : Block) :
    LiteValue.new (ConfirmedBlock.new X) ≠ LiteValue.new (ValidatedBlock.new X) := by
  simp [LiteValue.new, ConfirmedBlock.new, ValidatedBlock.new, cryptoHash]

/-- Claim C7: for every `LiteValue`, round and secret key, the vote built by
`LiteVote.new` passes `check()`: signing then verifying with the
corresponding public key round-trips successfully. -/
theorem lite_vote_new_check_ok (lv : LiteValue) (r : Round) (sk : SecretKey) :
    (LiteVote.new lv r sk).check = Except.ok () := by
  simp [LiteVote.check, LiteVote.new, Signature.verify, Signature.sign]

/-- Claim C2: for every block content, round and secret key, swapping the
signature fields between the confirmed-block vote and the validated-block
vote for the same content makes `check()` fail for both, because the signed
payload embeds the kind. -/
theorem swapped_signatures_check_fails (X : Block) (r : Round) (sk : SecretKey) :
    ({ LiteVote.new (LiteValue.new (ValidatedBlock.new X)) r sk with
        signature := (LiteVote.new (LiteValue.new (ConfirmedBlock.new X)) r sk).signature } :
      LiteVote).check = Except.error ChainError.InvalidSignature ∧
    ({ LiteVote.new (LiteValue.new (ConfirmedBlock.new X)) r sk with
        signature := (LiteVote.new (LiteValue.new (ValidatedBlock.new X)) r sk).signature } :
      LiteVote).check = Except.error ChainError.InvalidSignature := by
  constructor <;>
    simp [LiteVote.check, LiteVote.new, Signature.verify, Signature.sign,
      LiteValue.new, ConfirmedBlock.new, ValidatedBlock.new, cryptoHash]

/-- Claim C8: a vote whose `public_key` field does not correspond to the
secret key actually used to produce its signature fails `check()` with a
signature-invalid error. -/
theorem mismatched_public_key_check_fails (lv : LiteValue) (r : Round) (sk : SecretKey)
    (pk : PublicKey) (h : pk ≠ publicOf sk) :
    ({ LiteVote.new lv r sk with public_key := pk } : LiteVote).check =
      Except.error ChainError.InvalidSignature := by
  simp [LiteVote.check, LiteVote.new, Signature.verify, Signature.sign, Ne.symm h]

/-- Sample execution outcome used to instantiate universally quantified
claims at a concrete input, mirroring the shape used by the unit tests. -/
def sampleOutcome : BlockExecutionOutcome :=
  { messages := [[]], previous_message_blocks := [], state_hash := 7,
    oracle_responses := [[]], events := [[]], blobs := [[]],
    operation_results := [0] }

/-- Sample block content used to instantiate claims at a concrete input. -/
def sampleBlock : Block :=
  { content := 1, outcome := sampleOutcome }

/-- Witness for C8: a vote signed by secret key 0 but carrying public key 1
fails `check()`. -/
theorem mismatched_public_key_check_fails_witness :
    ({ LiteVote.new (LiteValue.new (ConfirmedBlock.new sampleBlock)) Round.Fast 0 with
        public_key := 1 } : LiteVote).check =
      Except.error ChainError.InvalidSignature :=
  mismatched_public_key_check_fails (LiteValue.new (ConfirmedBlock.new sampleBlock))
    Round.Fast 0 1 (by decide)

/-- In a two-validator committee of equal powers, one validator's power is
never a quorum. -/
lemma twoValidator_one_not_quorum (pk1 pk2 : PublicKey) (p : Nat) :
    (twoValidatorCommittee pk1 pk2 p).is_quorum p = false := by
  simp only [Committee.is_quorum, Committee.quorum_threshold, Committee.total,
    twoValidatorCommittee, List.map, List.sum_cons, List.sum_nil, decide_eq_false_iff_not,
    not_lt]
  omega

/-- In a two-validator committee of equal positive powers, both validators
together form a quorum. -/
lemma twoValidator_both_quorum (pk1 pk2 : PublicKey) (p : Nat) (hp : 0 < p) :
    (twoValidatorCommittee pk1 pk2 p).is_quorum (p + p) = true := by
  simp only [Committee.is_quorum, Committee.quorum_threshold, Committee.total,
    twoValidatorCommittee, List.map, List.sum_cons, List.sum_nil, decide_eq_true_eq]
  omega

/-- Power lookup of the first member of a two-validator committee. -/
lemma power_of_twoValidator_left (pk1 pk2 : PublicKey) (p : Nat) :
    (twoValidatorCommittee pk1 pk2 p).power_of pk1 = some p := by
  simp [twoValidatorCommittee, Committee.power_of, List.find?]

/-- Power lookup of the second member of a two-validator committee with
distinct keys. -/
lemma power_of_twoValidator_right (pk1 pk2 : PublicKey) (p : Nat) (h : pk1 ≠ pk2) :
    (twoValidatorCommittee pk1 pk2 p).power_of pk2 = some p := by
  have hb : (pk1 == pk2) = false := beq_eq_false_iff_ne.mpr h
  simp [twoValidatorCommittee, Committee.power_of, List.find?, hb]

/-- Evaluation of the first `append` in the two-validator scenario: the
first valid vote is recorded without reaching a quorum. -/
lemma twoValidator_append_first (v : HashedValue) (r : Round) (sk1 sk2 : SecretKey)
    (p : Nat) :
    (SignatureAggregator.new v r
        (twoValidatorCommittee (publicOf sk1) (publicOf sk2) p)).append
        (publicOf sk1) (Signature.sign (LiteValue.new v, r) sk1) =
      ({ value := v, round := r,
         committee := twoValidatorCommittee (publicOf sk1) (publicOf sk2) p,
         votes := [(publicOf sk1, Signature.sign (LiteValue.new v, r) sk1)],
         weight := p }, Except.ok none) := by
  have hq := twoValidator_one_not_quorum (publicOf sk1) (publicOf sk2) p
  simp [SignatureAggregator.append, SignatureAggregator.new,
    power_of_twoValidator_left, Signature.verify, Signature.sign, hq]

/-- Evaluation of the second `append` in the two-validator scenario: the
second valid vote from the other validator crosses the quorum and emits the
certificate over both recorded signatures. -/
lemma twoValidator_append_second (v : HashedValue) (r : Round) (sk1 sk2 : SecretKey)
    (p : Nat) (hne : publicOf sk1 ≠ publicOf sk2) (hp : 0 < p) :
    SignatureAggregator.append
        { value := v, round := r,
          committee := twoValidatorCommittee (publicOf sk1) (publicOf sk2) p,
          votes := [(publicOf sk1, Signature.sign (LiteValue.new v, r) sk1)],
          weight := p }
        (publicOf sk2) (Signature.sign (LiteValue.new v, r) sk2) =
      ({ value := v, round := r,
         committee := twoValidatorCommittee (publicOf sk1) (publicOf sk2) p,
         votes := [(publicOf sk1, Signature.sign (LiteValue.new v, r) sk1),
                   (publicOf sk2, Signature.sign (LiteValue.new v, r) sk2)],
         weight := p + p },
       Except.ok (some { value := v, round := r,
                         signatures :=
                           [(publicOf sk1, Signature.sign (LiteValue.new v, r) sk1),
                            (publicOf sk2, Signature.sign (LiteValue.new v, r) sk2)] })) := by
  have hq := twoValidator_both_quorum (publicOf sk1) (publicOf sk2) p hp
  simp [SignatureAggregator.append, power_of_twoValidator_right _ _ _ hne,
    Signature.verify, Signature.sign, hne, Ne.symm hne, hq]

/-- Claim C3: in a committee of two equal-power validators (quorum requiring
both), the first valid vote yields `Ok(None)` and the second valid vote from
the other validator yields `Ok(Some(certificate))`. -/
theorem two_validator_aggregation (v : HashedValue) (r : Round) (sk1 sk2 : SecretKey)
    (p : Nat) (hne : publicOf sk1 ≠ publicOf sk2) (hp : 0 < p) :
    (((SignatureAggregator.new v r
          (twoValidatorCommittee (publicOf sk1) (publicOf sk2) p)).append
          (LiteVote.new (LiteValue.new v) r sk1).public_key
          (LiteVote.new (LiteValue.new v) r sk1).signature).2 = Except.ok none) ∧
    ∃ cert,
      ((((SignatureAggregator.new v r
            (twoValidatorCommittee (publicOf sk1) (publicOf sk2) p)).append
            (LiteVote.new (LiteValue.new v) r sk1).public_key
            (LiteVote.new (LiteValue.new v) r sk1).signature).1.append
            (LiteVote.new (LiteValue.new v) r sk2).public_key
            (LiteVote.new (LiteValue.new v) r sk2).signature).2 =
        Except.ok (some cert)) := by
  simp only [LiteVote.new]
  rw [twoValidator_append_first v r sk1 sk2 p]
  refine ⟨rfl, ?_⟩
  rw [twoValidator_append_second v r sk1 sk2 p hne hp]
  exact ⟨_, rfl⟩

/-- Witness for C3: the two-validator scenario at secret keys 0 and 1, power
1, the confirmed wrapping of the sample block and the fast round. -/
theorem two_validator_aggregation_witness :
    (((SignatureAggregator.new (ConfirmedBlock.new sampleBlock) Round.Fast
          (twoValidatorCommittee (publicOf 0) (publicOf 1) 1)).append
          (LiteVote.new (LiteValue.new (ConfirmedBlock.new sampleBlock)) Round.Fast 0).public_key
          (LiteVote.new (LiteValue.new (ConfirmedBlock.new sampleBlock)) Round.Fast 0).signature).2 =
        Except.ok none) ∧
    ∃ cert,
      ((((SignatureAggregator.new (ConfirmedBlock.new sampleBlock) Round.Fast
            (twoValidatorCommittee (publicOf 0) (publicOf 1) 1)).append
            (LiteVote.new (LiteValue.new (ConfirmedBlock.new sampleBlock)) Round.Fast 0).public_key
            (LiteVote.new (LiteValue.new (ConfirmedBlock.new sampleBlock)) Round.Fast 0).signature).1.append
            (LiteVote.new (LiteValue.new (ConfirmedBlock.new sampleBlock)) Round.Fast 1).public_key
            (LiteVote.new (LiteValue.new (ConfirmedBlock.new sampleBlock)) Round.Fast 1).signature).2 =
        Except.ok (some cert)) :=
  two_validator_aggregation (ConfirmedBlock.new sampleBlock) Round.Fast 0 1 1
    (by decide) (by decide)

/-- Claim C4: an `append` call that returns an error leaves the aggregator's
recorded signer set and accumulated power exactly as they were before the
call. -/
theorem append_error_preserves_state (agg : SignatureAggregator) (pk : PublicKey)
    (sig : Signature) (e : ChainError)
    (h : (agg.append pk sig).2 = Except.error e) :
    (agg.append pk sig).1 = agg := by
  unfold SignatureAggregator.append at h ⊢
  cases hpow : agg.committee.power_of pk with
  | none => simp [hpow]
  | some power =>
    simp only [hpow] at h ⊢
    by_cases hdup : agg.votes.any (fun v => v.1 == pk)
    · simp [hdup]
    · by_cases hver : sig.verify (LiteValue.new agg.value, agg.round) pk
      · simp only [hdup, hver, Bool.false_eq_true, if_false, if_true] at h
        split at h <;> simp_all
      · simp [hdup, hver]

/-- Witness for C4: appending a vote from public key 5, absent from the
two-member committee, fails with *unknown signer* and leaves the fresh
aggregator unchanged. -/
theorem append_error_preserves_state_witness :
    ((SignatureAggregator.new (ConfirmedBlock.new sampleBlock) Round.Fast
        (twoValidatorCommittee 0 1 1)).append 5
        (Signature.sign (LiteValue.new (ConfirmedBlock.new sampleBlock), Round.Fast) 5)).1 =
      SignatureAggregator.new (ConfirmedBlock.new sampleBlock) Round.Fast
        (twoValidatorCommittee 0 1 1) :=
  append_error_preserves_state _ 5 _ ChainError.UnknownSigner (by rfl)

/-- Claim C9: once a committee member's signature is recorded, any further
`append` under the same public key — same or different signature — fails
with *duplicate vote* and leaves the aggregator unchanged, so a second entry
is never recorded and the original is never overwritten. -/
theorem duplicate_key_append_rejected (agg : SignatureAggregator) (pk : PublicKey)
    (sig' : Signature) (p : Nat) (hmem : agg.committee.power_of pk = some p)
    (hrec : pk ∈ agg.votes.map Prod.fst) :
    agg.append pk sig' = (agg, Except.error ChainError.DuplicateVote) := by
  have hdup : agg.votes.any (fun v => v.1 == pk) = true := by
    rcases List.mem_map.mp hrec with ⟨x, hx, hfst⟩
    exact List.any_eq_true.mpr ⟨x, hx, by simp [hfst]⟩
  unfold SignatureAggregator.append
  simp [hmem, hdup]

/-- Witness for C9: an aggregator that has recorded validator 0's signature
rejects a second signature under key 0 with *duplicate vote* and is left
unchanged. -/
theorem duplicate_key_append_rejected_witness :
    SignatureAggregator.append
        { value := ConfirmedBlock.new sampleBlock, round := Round.Fast,
          committee := twoValidatorCommittee 0 1 1,
          votes := [(0, Signature.sign
            (LiteValue.new (ConfirmedBlock.new sampleBlock), Round.Fast) 0)],
          weight := 1 }
        0 (Signature.sign (LiteValue.new (ValidatedBlock.new sampleBlock), Round.Fast) 0) =
      ({ value := ConfirmedBlock.new sampleBlock, round := Round.Fast,
         committee := twoValidatorCommittee 0 1 1,
         votes := [(0, Signature.sign
           (LiteValue.new (ConfirmedBlock.new sampleBlock), Round.Fast) 0)],
         weight := 1 }, Except.error ChainError.DuplicateVote) :=
  duplicate_key_append_rejected _ 0 _ 1 (by rfl) (by simp)

/-- Complete case analysis of `append`: either it rejects the submission
and returns the unchanged state, or it records the vote, extends the weight
by the signer's power, and emits the certificate exactly when the new weight
is a quorum. -/
lemma append_cases (agg : SignatureAggregator) (pk : PublicKey) (sig : Signature) :
    ((agg.append pk sig).1 = agg ∧ ∃ e, (agg.append pk sig).2 = Except.error e) ∨
    (∃ power, agg.committee.power_of pk = some power ∧
      agg.votes.any (fun v => v.1 == pk) = false ∧
      sig.verify (LiteValue.new agg.value, agg.round) pk = true ∧
      (agg.append pk sig).1 = { agg with votes := agg.votes ++ [(pk, sig)],
                                         weight := agg.weight + power } ∧
      ((agg.append pk sig).2 = Except.ok none ∨
        ((agg.append pk sig).2 =
            Except.ok (some { value := agg.value, round := agg.round,
                              signatures := agg.votes ++ [(pk, sig)] }) ∧
          agg.committee.is_quorum (agg.weight + power) = true))) := by
  unfold SignatureAggregator.append
  cases hpow : agg.committee.power_of pk with
  | none => exact Or.inl ⟨by simp, ChainError.UnknownSigner, by simp⟩
  | some power =>
    cases hdup : agg.votes.any (fun v => v.1 == pk) with
    | true => exact Or.inl ⟨by simp, ChainError.DuplicateVote, by simp⟩
    | false =>
      cases hver : sig.verify (LiteValue.new agg.value, agg.round) pk with
      | false => exact Or.inl ⟨by simp, ChainError.InvalidSignature, by simp⟩
      | true =>
        cases hq : agg.committee.is_quorum (agg.weight + power) with
        | true =>
          exact Or.inr ⟨power, rfl, rfl, rfl, by simp [hq], Or.inr ⟨by simp [hq], hq⟩⟩
        | false =>
          exact Or.inr ⟨power, rfl, rfl, rfl, by simp [hq], Or.inl (by simp [hq])⟩

/-- `append` never changes the aggregator's bound value, round or
committee. -/
lemma append_preserves_bindings (agg : SignatureAggregator) (pk : PublicKey)
    (sig : Signature) :
    (agg.append pk sig).1.value = agg.value ∧
    (agg.append pk sig).1.round = agg.round ∧
    (agg.append pk sig).1.committee = agg.committee := by
  rcases append_cases agg pk sig with ⟨heq, -⟩ | ⟨power, -, -, -, heq, -⟩ <;>
    rw [heq] <;> exact ⟨rfl, rfl, rfl⟩

/-- The fresh aggregator satisfies the invariant. -/
lemma WFAgg_new (v : HashedValue) (r : Round) (c : Committee) :
    WFAgg (SignatureAggregator.new v r c) := by
  unfold WFAgg SignatureAggregator.new votesWeight
  simp

/-- `append` preserves the aggregator invariant. -/
lemma WFAgg_append (agg : SignatureAggregator) (pk : PublicKey) (sig : Signature)
    (h : WFAgg agg) : WFAgg (agg.append pk sig).1 := by
  rcases append_cases agg pk sig with ⟨heq, -⟩ | ⟨power, hpow, hdup, hver, heq, -⟩
  · rw [heq]; exact h
  · rw [heq]
    obtain ⟨hnd, hall, hw⟩ := h
    have hnotin : pk ∉ agg.votes.map Prod.fst := by
      intro hmem
      rcases List.mem_map.mp hmem with ⟨x, hx, hfst⟩
      have := List.any_eq_false.mp hdup x hx
      simp [hfst] at this
    refine ⟨?_, ?_, ?_⟩
    · simp only [List.map_append, List.map_cons, List.map_nil, List.nodup_append]
      exact ⟨hnd, List.nodup_singleton pk, by
        intro a ha hb
        simp only [List.mem_singleton] at hb
        subst hb
        exact hnotin ha⟩
    · intro x hx
      rcases List.mem_append.mp hx with hx | hx
      · exact hall x hx
      · simp only [List.mem_singleton] at hx
        subst hx
        exact ⟨power, hpow, hver⟩
    · simp only [votesWeight, List.map_append, List.map_cons, List.map_nil,
        List.sum_append, List.sum_cons, List.sum_nil]
      rw [hw, hpow]
      simp [votesWeight]

/-- Running the certificate signature walk over a list of pairwise-distinct,
verified committee signatures succeeds and returns the accumulated power. -/
lemma checkSignaturesAux_ok (c : Committee) (p : VotePayload) :
    ∀ (sigs : List (PublicKey × Signature)) (seen : List PublicKey) (acc : Nat),
      (sigs.map Prod.fst).Nodup →
      (∀ x ∈ sigs, x.1 ∉ seen) →
      (∀ x ∈ sigs, ∃ q, c.power_of x.1 = some q ∧ x.2.verify p x.1 = true) →
      checkSignaturesAux c p sigs seen acc = Except.ok (acc + votesWeight c sigs)
  | [], seen, acc, _, _, _ => by simp [checkSignaturesAux, votesWeight]
  | (pk, sig) :: rest, seen, acc, hnd, hseen, hall => by
    obtain ⟨q, hq, hv⟩ := hall (pk, sig) (List.mem_cons_self _ _)
    have hmem : pk ∉ seen := hseen (pk, sig) (List.mem_cons_self _ _)
    have hnotseen : seen.contains pk = false := by simp [hmem]
    have hndr : (rest.map Prod.fst).Nodup := (List.nodup_cons.mp hnd).2
    have hhd : pk ∉ rest.map Prod.fst := (List.nodup_cons.mp hnd).1
    have hrec := checkSignaturesAux_ok c p rest (pk :: seen) (acc + q) hndr
      (fun x hx hin => by
        rcases List.mem_cons.mp hin with h1 | h1
        · exact hhd (List.mem_map.mpr ⟨x, hx, h1⟩)
        · exact hseen x (List.mem_cons_of_mem _ hx) h1)
      (fun x hx => hall x (List.mem_cons_of_mem _ hx))
    simp only [checkSignaturesAux, hq, hv, hnotseen, if_true, Bool.false_eq_true,
      if_false]
    rw [hrec]
    simp only [votesWeight, List.map_cons, List.sum_cons, hq, Option.getD_some]
    rw [Nat.add_assoc]

/-- A certificate emitted by `append` from an invariant-satisfying
aggregator passes verification against the aggregator's committee. -/
lemma cert_check_of_append (agg : SignatureAggregator) (pk : PublicKey)
    (sig : Signature) (cert : Certificate) (hwf : WFAgg agg)
    (h : (agg.append pk sig).2 = Except.ok (some cert)) :
    cert.check agg.committee = Except.ok () := by
  rcases append_cases agg pk sig with ⟨-, e, herr⟩ | ⟨power, hpow, hdup, hver, hstate, hout⟩
  · rw [herr] at h; cases h
  rcases hout with hnone | ⟨hsome, hq⟩
  · rw [hnone] at h; cases h
  rw [hsome] at h
  obtain rfl : cert = { value := agg.value, round := agg.round,
                        signatures := agg.votes ++ [(pk, sig)] } := by
    cases h; rfl
  have hwf' := WFAgg_append agg pk sig hwf
  rw [hstate] at hwf'
  obtain ⟨hnd', hall', hw'⟩ := hwf'
  have hrun := checkSignaturesAux_ok agg.committee (LiteValue.new agg.value, agg.round)
    (agg.votes ++ [(pk, sig)]) [] 0 hnd' (fun x _ hx => (List.not_mem_nil x.1) hx) hall'
  unfold Certificate.check
  simp only at hrun ⊢
  rw [hrun]
  have hwq : agg.committee.is_quorum (votesWeight agg.committee (agg.votes ++ [(pk, sig)])) =
      true := by
    rw [← hw']
    exact hq
  simp [hwq]

/-- Any certificate produced by running submissions through an
invariant-satisfying aggregator passes verification against its committee. -/
lemma runAggregator_cert_check :
    ∀ (inputs : List (PublicKey × Signature)) (agg : SignatureAggregator)
      (cert : Certificate), WFAgg agg →
      (runAggregator agg inputs).2 = some cert →
      cert.check agg.committee = Except.ok ()
  | [], agg, cert, _, h => by simp [runAggregator] at h
  | (pk, sig) :: rest, agg, cert, hwf, h => by
    rw [runAggregator] at h
    obtain ⟨hv, hr, hc⟩ := append_preserves_bindings agg pk sig
    cases happ : agg.append pk sig with
    | mk agg' res =>
      rw [happ] at h
      have hc' : agg'.committee = agg.committee := by rw [← hc, happ]
      have hwf' : WFAgg agg' := by
        have := WFAgg_append agg pk sig hwf
        rwa [happ] at this
      cases res with
      | error e =>
        simp only at h
        rw [← hc']
        exact runAggregator_cert_check rest agg' cert hwf' h
      | ok o =>
        cases o with
        | none =>
          simp only at h
          rw [← hc']
          exact runAggregator_cert_check rest agg' cert hwf' h
        | some c0 =>
          simp only at h
          obtain rfl : c0 = cert := by cases h; rfl
          exact cert_check_of_append agg pk sig c0 hwf (by rw [happ])

/-- Claim C5: every certificate produced by a `SignatureAggregator` crossing
the quorum passes `certificate.check` against the committee the aggregator
was constructed with. -/
theorem aggregator_certificate_check_ok (v : HashedValue) (r : Round) (c : Committee)
    (inputs : List (PublicKey × Signature)) (cert : Certificate)
    (h : (runAggregator (SignatureAggregator.new v r c) inputs).2 = some cert) :
    cert.check c = Except.ok () :=
  runAggregator_cert_check inputs (SignatureAggregator.new v r c) cert
    (WFAgg_new v r c) h

/-- Witness for C5: the certificate produced by the two-validator sample run
passes verification. -/
theorem aggregator_certificate_check_ok_witness :
    Certificate.check
      { value := ConfirmedBlock.new sampleBlock, round := Round.Fast,
        signatures :=
          [(0, Signature.sign (LiteValue.new (ConfirmedBlock.new sampleBlock), Round.Fast) 0),
           (1, Signature.sign (LiteValue.new (ConfirmedBlock.new sampleBlock), Round.Fast) 1)] }
      (twoValidatorCommittee 0 1 1) = Except.ok () :=
  aggregator_certificate_check_ok (ConfirmedBlock.new sampleBlock) Round.Fast
    (twoValidatorCommittee 0 1 1)
    [(0, Signature.sign (LiteValue.new (ConfirmedBlock.new sampleBlock), Round.Fast) 0),
     (1, Signature.sign (LiteValue.new (ConfirmedBlock.new sampleBlock), Round.Fast) 1)]
    _ (by rfl)

/-- Claim C6: removing one `(public_key, signature)` pair from a certificate
freshly built over a 2-of-2 committee makes `check()` fail with
*insufficient quorum*, even though the certificate's value and round are
unchanged. -/
theorem removing_signature_breaks_certificate (v : HashedValue) (r : Round)
    (sk1 sk2 : SecretKey) (p : Nat) (cert : Certificate)
    (hne : publicOf sk1 ≠ publicOf sk2) (hp : 0 < p)
    (h : ((((SignatureAggregator.new v r
          (twoValidatorCommittee (publicOf sk1) (publicOf sk2) p)).append
          (LiteVote.new (LiteValue.new v) r sk1).public_key
          (LiteVote.new (LiteValue.new v) r sk1).signature).1.append
          (LiteVote.new (LiteValue.new v) r sk2).public_key
          (LiteVote.new (LiteValue.new v) r sk2).signature).2 =
        Except.ok (some cert))) :
    ({ cert with signatures := cert.signatures.dropLast } : Certificate).check
        (twoValidatorCommittee (publicOf sk1) (publicOf sk2) p) =
      Except.error ChainError.InsufficientQuorum := by
  simp only [LiteVote.new] at h
  rw [twoValidator_append_first v r sk1 sk2 p] at h
  simp only [twoValidator_append_second v r sk1 sk2 p hne hp] at h
  have hcert : cert = { value := v, round := r,
                        signatures :=
                          [(publicOf sk1, Signature.sign (LiteValue.new v, r) sk1),
                           (publicOf sk2, Signature.sign (LiteValue.new v, r) sk2)] } := by
    simp only [Except.ok.injEq, Option.some.injEq] at h
    exact h.symm
  subst hcert
  have hq := twoValidator_one_not_quorum (publicOf sk1) (publicOf sk2) p
  simp [Certificate.check, checkSignaturesAux, power_of_twoValidator_left,
    Signature.verify, Signature.sign, List.dropLast, hq]

/-- Witness for C6: dropping the second signature of the concrete sample
certificate makes verification fail with *insufficient quorum*. -/
theorem removing_signature_breaks_certificate_witness :
    ({ ({ value := ConfirmedBlock.new sampleBlock, round := Round.Fast,
          signatures :=
            [(0, Signature.sign (LiteValue.new (ConfirmedBlock.new sampleBlock), Round.Fast) 0),
             (1, Signature.sign (LiteValue.new (ConfirmedBlock.new sampleBlock), Round.Fast) 1)] } :
        Certificate) with
        signatures :=
          ([(0, Signature.sign (LiteValue.new (ConfirmedBlock.new sampleBlock), Round.Fast) 0),
            (1, Signature.sign (LiteValue.new (ConfirmedBlock.new sampleBlock), Round.Fast) 1)] :
            List (PublicKey × Signature)).dropLast } : Certificate).check
        (twoValidatorCommittee (publicOf 0) (publicOf 1) 1) =
      Except.error ChainError.InsufficientQuorum :=
  removing_signature_breaks_certificate (ConfirmedBlock.new sampleBlock) Round.Fast
    0 1 1 _ (by decide) (by decide) (by rfl)

end Linera

namespace Wallet

/-- A Rust `&str` modelled as its list of Unicode scalar values (`Char` in
Lean is exactly a Unicode scalar value, as in Rust). -/
abbrev RustStr := List Char

/-- The byte length of the UTF-8 encoding of a string (Rust `str::len`). -/
def strByteLen (s : RustStr) : Nat :=
  (s.map Char.utf8Size).sum

/-- Rust `str::get(..n)`: the prefix of the string occupying exactly `n`
bytes, or `none` when byte index `n` is not a character boundary (including
`n` beyond the end of the string). -/
def takeBytes : RustStr → Nat → Option RustStr
  | _, 0 => some []
  | [], _ + 1 => none
  | c :: rest, n + 1 =>
    if c.utf8Size ≤ n + 1 then (takeBytes rest (n + 1 - c.utf8Size)).map (fun p => c :: p)
    else none

/-- Embedded from `src/linera-service/src/cli_wrappers/wallet.rs`:
`truncate_query_output` returns the input unchanged when its byte length is
below 200 and otherwise appends `" ..."` to its first 200 bytes. The
`.unwrap()` of `input.get(..200)` is modelled by `none` (the panic) when
byte index 200 is not a character boundary. -/
def truncate_query_output (input : RustStr) : Option RustStr :=
  let max_len := 200
  if strByteLen input < max_len then some input
  else (takeBytes input max_len).map (fun p => p ++ (" ...".toList))

/-- Byte length distributes over concatenation. -/
lemma strByteLen_append (p q : RustStr) :
    strByteLen (p ++ q) = strByteLen p + strByteLen q := by
  simp [strByteLen]

/-- Slicing a concatenation at the exact byte length of its first part
recovers that part: the cut falls on a character boundary. -/
lemma takeBytes_append (p q : RustStr) :
    takeBytes (p ++ q) (strByteLen p) = some p := by
  induction p with
  | nil => simp [takeBytes, strByteLen]
  | cons c p ih =>
    have hpos := Char.utf8Size_pos c
    have h1 : strByteLen (c :: p) = c.utf8Size + strByteLen p := by simp [strByteLen]
    obtain ⟨k, hk⟩ : ∃ k, strByteLen (c :: p) = k + 1 := ⟨strByteLen (c :: p) - 1, by omega⟩
    rw [hk, List.cons_append]
    simp only [takeBytes]
    rw [if_pos (by omega : c.utf8Size ≤ k + 1)]
    have h2 : k + 1 - c.utf8Size = strByteLen p := by omega
    rw [h2, ih]
    rfl

set_option maxRecDepth 10000 in
/-- Counterexample to claim C10 as stated: on the 201-byte input made of 199
ASCII characters followed by one two-byte character, byte index 200 falls
inside the last character, `input.get(..200)` is `None`, and the `.unwrap()`
panics (modelled as `none`) — the function is not total. -/
theorem truncate_query_output_panics :
    truncate_query_output (List.replicate 199 'a' ++ ['é']) = none := by
  rfl

/-- Claim C10 (amended): `truncate_query_output` is deterministic; an input
of byte length below 200 is returned unchanged, and an input that splits
into a 200-byte prefix followed by a (possibly empty) rest — i.e. byte index
200 is a character boundary — yields that prefix followed by `" ..."`. On
inputs of at least 200 bytes where byte 200 is not a character boundary the
code panics. -/
theorem truncate_query_output_amended (s : RustStr) :
    (strByteLen s < 200 → truncate_query_output s = some s) ∧
    (∀ p q, s = p ++ q → strByteLen p = 200 →
      truncate_query_output s = some (p ++ " ...".toList)) := by
  constructor
  · intro h
    simp [truncate_query_output, h]
  · rintro p q rfl hp
    have hnot : ¬ strByteLen (p ++ q) < 200 := by
      rw [strByteLen_append, hp]
      omega
    simp only [truncate_query_output, if_neg hnot]
    rw [← hp, takeBytes_append]
    rfl

set_option maxRecDepth 10000 in
/-- Witness for the amended C10: a short input is returned unchanged, and an
input of exactly 200 ASCII bytes is returned with `" ..."` appended. -/
theorem truncate_query_output_amended_witness :
    truncate_query_output ['h', 'i'] = some ['h', 'i'] ∧
    truncate_query_output (List.replicate 200 'a') =
      some (List.replicate 200 'a' ++ " ...".toList) :=
  ⟨(truncate_query_output_amended ['h', 'i']).1 (by decide),
   (truncate_query_output_amended (List.replicate 200 'a')).2
     (List.replicate 200 'a') [] (by simp) (by decide)⟩

end Wallet
